import Mathlib

/-!
Verification development for the Traceon numerical backend
(`src/traceon/backend/traceon-backend.c`, with the older variant
`src/traceon/backend/backend.c` where a claim refers to it).

Modelling conventions (shallow embedding):
* C `double` values are modelled as exact rationals `ℚ`; decimal literals in
  the C source are read as the exact rationals they denote.
* Calls into `libm` transcendental primitives (`log`, `sqrt`, `cos`, `sin`,
  `atan2`, `pow` with non-integer exponent) are modelled as explicit function
  parameters (`lg`, `sq`, `cosq`, `sinq`, `at2`, `pw`): the C code treats them
  as black boxes, and every theorem below is universally quantified over them.
  Integer-exponent `pow` calls are modelled as exact powers.
* Flat C output buffers (`double *matrix`, `double positions[][6]`) are
  modelled as total functions `ℕ → ℚ` updated by `Function.update`; a loop of
  stores becomes a fold over the list of performed writes.
* A C function that can abort the process (`exit(1)`) is modelled with
  `Except Unit`, `Except.error ()` standing for the abort.
-/

/-- Vectors of six doubles (`double[6]`), the tracer phase state. -/
abbrev Vec6 := Fin 6 → ℚ

/-- Vectors of three doubles (`double[3]`). -/
abbrev Vec3 := Fin 3 → ℚ

/-- The constant `M_PI` used by the C source. -/
def M_PI : ℚ := 3.14159265358979323846

/-- The constant `MIN_DISTANCE_AXIS = 1e-10` (traceon-backend.c line 45). -/
def MIN_DISTANCE_AXIS : ℚ := 1e-10

/-- The constant `TRACING_STEP_MAX = 0.01` (traceon-backend.c line 44). -/
def TRACING_STEP_MAX : ℚ := 0.01

/-- The constant `TRACING_BLOCK_SIZE = (size_t) 1e5` (traceon-backend.c line 52). -/
def TRACING_BLOCK_SIZE : ℕ := 100000

/-- The electron charge-to-mass ratio `EM` (traceon-backend.c line 260). -/
def EM : ℚ := -0.1758820022723908

/-! ## Elliptic integrals (traceon-backend.c lines 62-132, backend.c lines 34-96) -/

/-- Chebyshev coefficient table `A` of `ellipk_singularity`; the leading entry
is `log(4.0)`, supplied by the `lg` parameter. -/
def ellipkA (lg : ℚ → ℚ) : List ℚ :=
  [lg 4, 9.65736020516771e-2, 3.08909633861795e-2, 1.52618320622534e-2,
   1.25565693543211e-2, 1.68695685967517e-2, 1.09423810688623e-2, 1.40704915496101e-3]

/-- Chebyshev coefficient table `B` of `ellipk_singularity`. -/
def ellipkB : List ℚ :=
  [1/2, 1.24999998585309e-1, 7.03114105853296e-2, 4.87379510945218e-2,
   3.57218443007327e-2, 2.09857677336790e-2, 5.81807961871996e-3, 3.42805719229748e-4]

/-- The Cody/Chebyshev approximant `ellipk_singularity` (traceon-backend.c
lines 62-90): `Σ_{i<8} (A[i] + log(1/η)·B[i])·η^i` with `η = 1 - k`.
`lg` models `log`. -/
def ellipk_singularity (lg : ℚ → ℚ) (k : ℚ) : ℚ :=
  let eta := 1 - k
  let L := lg (1 / eta)
  (List.range 8).foldl
    (fun s i => s + ((ellipkA lg).getD i 0 + L * ellipkB.getD i 0) * eta ^ i) 0

/-- The exported `ellipk` (traceon-backend.c lines 92-96, identical in
backend.c lines 60-64): the approximant is used directly when `k > -1`,
otherwise the Landen-type identity maps the argument.  `sq` models `sqrt`. -/
def ellipk (lg sq : ℚ → ℚ) (k : ℚ) : ℚ :=
  if k > -1 then ellipk_singularity lg k
  else ellipk_singularity lg (1 - 1 / (1 - k)) / sq (1 - k)

/-! ## Quadrature tables (traceon-backend.c lines 190-192 and 394-395) -/

/-- The eight tabulated Gauss-Legendre nodes `GAUSS_QUAD_POINTS`. -/
def GAUSS_QUAD_POINTS : List ℚ :=
  [-0.1834346424956498, 0.1834346424956498, -0.5255324099163290, 0.5255324099163290,
   -0.7966664774136267, 0.7966664774136267, -0.9602898564975363, 0.9602898564975363]

/-- The eight tabulated Gauss-Legendre weights `GAUSS_QUAD_WEIGHTS`. -/
def GAUSS_QUAD_WEIGHTS : List ℚ :=
  [0.3626837833783620, 0.3626837833783620, 0.3137066458778873, 0.3137066458778873,
   0.2223810344533745, 0.2223810344533745, 0.1012285362903763, 0.1012285362903763]

/-- First barycentric coordinates of the nine-point triangle rule `QUAD_B1`. -/
def QUAD_B1 : List ℚ :=
  [0.124949503233232, 0.437525248383384, 0.437525248383384, 0.797112651860071,
   0.797112651860071, 0.165409927389841, 0.165409927389841, 0.037477420750088,
   0.037477420750088]

/-- Second barycentric coordinates of the nine-point triangle rule `QUAD_B2`. -/
def QUAD_B2 : List ℚ :=
  [0.437525248383384, 0.124949503233232, 0.437525248383384, 0.165409927389841,
   0.037477420750088, 0.797112651860071, 0.037477420750088, 0.797112651860071,
   0.165409927389841]

/-- The nine tabulated symmetric triangle-rule weights `QUAD_WEIGHTS`. -/
def QUAD_WEIGHTS : List ℚ :=
  [0.205950504760887, 0.205950504760887, 0.205950504760887, 0.063691414286223,
   0.063691414286223, 0.063691414286223, 0.063691414286223, 0.063691414286223,
   0.063691414286223]

/-! ## Shared numeric utilities -/

/-- `norm_2d` (traceon-backend.c lines 140-143); `sq` models `sqrt`. -/
def norm_2d (sq : ℚ → ℚ) (x y : ℚ) : ℚ := sq (x * x + y * y)

/-- `length_2d` (traceon-backend.c lines 145-148): segment endpoints are
`(r, z)` pairs stored as the first two entries of 3-vectors. -/
def length_2d (sq : ℚ → ℚ) (v1 v2 : Vec3) : ℚ :=
  norm_2d sq (v2 0 - v1 0) (v2 1 - v1 1)

/-- `norm_3d` (traceon-backend.c lines 168-171). -/
def norm_3d (sq : ℚ → ℚ) (x y z : ℚ) : ℚ := sq (x * x + y * y + z * z)

/-! ## Particle tracing (traceon-backend.c lines 257-356) -/

/-- Runge-Kutta-Fehlberg stage coefficient rows `B2..B6`
(traceon-backend.c lines 263-267); `stageCoeffs n` is `coefficients[n]` of
`produce_new_y`, the row used when `n` stages have already been produced. -/
def stageCoeffs : ℕ → List ℚ
  | 1 => [2/9]
  | 2 => [1/12, 1/4]
  | 3 => [69/128, -243/128, 135/64]
  | 4 => [-17/12, 27/4, -27/5, 16/15]
  | 5 => [65/432, -5/16, 13/16, 4/27, 5/144]
  | _ => []

/-- Fifth-order solution weights `CH` (traceon-backend.c line 268). -/
def CH : List ℚ := [47/450, 0, 12/25, 32/225, 1/30, 6/25]

/-- Truncation-error weights `CT` (traceon-backend.c line 269). -/
def CT : List ℚ := [-1/150, 0, 3/100, -16/75, -1/20, 6/25]

/-- `produce_new_y` (traceon-backend.c lines 273-285): the stage state
`ys[index][i] = y[i] + Σ_{j<index} coefficients[index][j]·ks[j][i]`, where
`index = ks.length` stages have been produced so far. -/
def produce_new_y (y : Vec6) (ks : List Vec6) : Vec6 :=
  fun i => y i + ((stageCoeffs ks.length).zip ks).foldl (fun a cj => a + cj.1 * cj.2 i) 0

/-- `produce_new_k` (traceon-backend.c lines 287-299): stage derivative from
the stage state `ys`; position components from `ys[3..5]`, velocity
components from `EM` times the field. -/
def produce_new_k (field : Vec6 → Vec3) (h : ℚ) (ys : Vec6) : Vec6 :=
  ![h * ys 3, h * ys 4, h * ys 5,
    h * EM * field ys 0, h * EM * field ys 1, h * EM * field ys 2]

/-- The six RK stages produced by the loop at traceon-backend.c lines 328-331. -/
def rkStages (field : Vec6 → Vec3) (h : ℚ) (y : Vec6) : List Vec6 :=
  (List.range 6).foldl (fun ks _ => ks ++ [produce_new_k field h (produce_new_y y ks)]) []

/-- Truncation estimate `TE` (traceon-backend.c lines 333-339):
the maximum over components of `|Σ_j CT[j]·k[j][i]|`, starting from `0`. -/
def truncationError (ks : List Vec6) : ℚ :=
  (List.finRange 6).foldl
    (fun TE i => max TE |((CT.zip ks).foldl (fun a cj => a + cj.1 * cj.2 i) 0)|) 0

/-- The fifth-order update `y + Σ_j CH[j]·k[j]` (traceon-backend.c line 343). -/
def rkAccept (y : Vec6) (ks : List Vec6) : Vec6 :=
  fun i => y i + (CH.zip ks).foldl (fun a cj => a + cj.1 * cj.2 i) 0

/-- State of the `trace_particle` while-loop: the working 6-vector `y`, the
current step `h`, the count `N` of stored samples, the contents of the
`times_array` and `positions` buffers so far, and the list `writes` of buffer
indices the tracer has stored into (both arrays are written at the same
index, traceon-backend.c lines 344-345). -/
structure TraceState where
  y : Vec6
  h : ℚ
  N : ℕ
  times : List ℚ
  poss : List Vec6
  writes : List ℕ
deriving DecidableEq

/-- The bounding-box test of the while-loop header (traceon-backend.c
lines 321-323). -/
def inBounds (bounds : Fin 3 → ℚ × ℚ) (y : Vec6) : Prop :=
  ((bounds 0).1 ≤ y 0 ∧ y 0 ≤ (bounds 0).2) ∧
  ((bounds 1).1 ≤ y 1 ∧ y 1 ≤ (bounds 1).2) ∧
  ((bounds 2).1 ≤ y 2 ∧ y 2 ≤ (bounds 2).2)

instance (bounds : Fin 3 → ℚ × ℚ) (y : Vec6) : Decidable (inBounds bounds y) := by
  unfold inBounds; infer_instance

/-- One iteration of the `trace_particle` while-loop body (traceon-backend.c
lines 325-352).  `pw x` models `pow(x, 0.2)`.  Returns the new state and a
flag that is `true` exactly when the early `return N` at line 349 fires
(block filled; in that case `h` is not updated, matching the C control
flow). -/
def traceStep (field : Vec6 → Vec3) (pw : ℚ → ℚ) (hmax atol : ℚ)
    (s : TraceState) : TraceState × Bool :=
  let ks := rkStages field s.h s.y
  let TE := truncationError ks
  if TE ≤ atol then
    let y1 := rkAccept s.y ks
    let s1 : TraceState :=
      { y := y1, h := s.h, N := s.N + 1,
        times := s.times ++ [s.times.getLastD 0 + s.h],
        poss := s.poss ++ [y1],
        writes := s.writes ++ [s.N] }
    if s1.N = TRACING_BLOCK_SIZE then (s1, true)
    else ({ s1 with h := min (9/10 * s.h * pw (atol / TE)) hmax }, false)
  else ({ s with h := min (9/10 * s.h * pw (atol / TE)) hmax }, false)

/-- The `trace_particle` while-loop (traceon-backend.c lines 321-353), with a
fuel parameter: `none` means the loop was still running after `fuel`
iterations. -/
def traceLoop (field : Vec6 → Vec3) (pw : ℚ → ℚ) (hmax atol : ℚ)
    (bounds : Fin 3 → ℚ × ℚ) : ℕ → TraceState → Option TraceState
  | 0, _ => none
  | fuel + 1, s =>
    if inBounds bounds s.y then
      let r := traceStep field pw hmax atol s
      if r.2 then some r.1 else traceLoop field pw hmax atol bounds fuel r.1
    else some s

/-- `trace_particle` (traceon-backend.c lines 302-356).  The caller supplies
the initial sample: `pos0` is `positions[0]` and `t0` is `times_array[0]`.
`sq` models `sqrt` (inside `norm_3d`), `pw` models `pow(·, 0.2)`. -/
def trace_particle (sq pw : ℚ → ℚ) (field : Vec6 → Vec3)
    (bounds : Fin 3 → ℚ × ℚ) (atol t0 : ℚ) (pos0 : Vec6) (fuel : ℕ) :
    Option TraceState :=
  let V := norm_3d sq (pos0 3) (pos0 4) (pos0 5)
  let hmax := TRACING_STEP_MAX / V
  traceLoop field pw hmax atol bounds fuel
    { y := pos0, h := hmax, N := 1, times := [t0], poss := [pos0], writes := [] }

/-- Step-size control of the older tracer variant (backend.c lines 316-327),
as a function of the truncation estimate `TE` and the current step `h`:
the pair is (step accepted?, new step size).  The RK stage computation that
produces `TE` in that file reads `ks[index-1]` at `index = 0` (backend.c
line 267) through a call whose `h` and `index` arguments are transposed
(backend.c line 305), so it has no defined value and is not modelled; the
acceptance and step-size policy below is exactly lines 316-327. -/
def backend_step_control (pw : ℚ → ℚ) (TE h atol hmin hmax : ℚ) : Bool × ℚ :=
  (decide (TE ≤ atol) || decide (h = hmin),
   if TE > atol / 10 then max (min (9/10 * h * pw (atol / TE)) hmax) hmin
   else if TE < atol / 100 then hmax
   else h)

/-! ## Plane intersection (traceon-backend.c lines 1135-1179) -/

/-- The backward walk of `xy_plane_intersection_2d/_3d`: the argument of
`xpi_aux` is the loop variable `i` of `for(int i = N_p-1; i > 0; i--)`;
`zc` is the index of the z-coordinate inside a stored state (1 for the 2D
variant, 2 for the 3D variant).  `some`/`none` model the `true`/`false`
return with the interpolated vector written to `result`. -/
def xpi_aux {d : ℕ} (pos : ℕ → Fin d → ℚ) (zc : Fin d) (z : ℚ) :
    ℕ → Option (Fin d → ℚ)
  | 0 => none
  | i + 1 =>
    let z1 := pos i zc
    let z2 := pos (i + 1) zc
    if min z1 z2 ≤ z ∧ z ≤ max z1 z2 then
      some (fun k => pos i k + |(z - z1) / (z1 - z2)| * (pos (i + 1) k - pos i k))
    else xpi_aux pos zc z i

/-- `xy_plane_intersection_2d` (traceon-backend.c lines 1135-1156):
states are 4-vectors, z-coordinate at index 1. -/
def xy_plane_intersection_2d (pos : ℕ → Fin 4 → ℚ) (N_p : ℕ) (z : ℚ) :
    Option (Fin 4 → ℚ) :=
  xpi_aux pos 1 z (N_p - 1)

/-- `xy_plane_intersection_3d` (traceon-backend.c lines 1158-1179):
states are 6-vectors, z-coordinate at index 2. -/
def xy_plane_intersection_3d (pos : ℕ → Fin 6 → ℚ) (N_p : ℕ) (z : ℚ) :
    Option (Fin 6 → ℚ) :=
  xpi_aux pos 2 z (N_p - 1)

/-- Straddle test for the consecutive pair `(state i-1, state i)` (the
condition at traceon-backend.c lines 1145/1168). -/
def straddles {d : ℕ} (pos : ℕ → Fin d → ℚ) (zc : Fin d) (z : ℚ) (i : ℕ) : Prop :=
  min (pos (i - 1) zc) (pos i zc) ≤ z ∧ z ≤ max (pos (i - 1) zc) (pos i zc)

instance {d : ℕ} (pos : ℕ → Fin d → ℚ) (zc : Fin d) (z : ℚ) (i : ℕ) :
    Decidable (straddles pos zc z i) := by
  unfold straddles; infer_instance

/-- The linear interpolation written at traceon-backend.c lines 1148-1149 and
1171-1172, at the fraction `λ = |z-z₁|/|z₁-z₂|` between states `i-1` and `i`. -/
def xpiInterp {d : ℕ} (pos : ℕ → Fin d → ℚ) (zc : Fin d) (z : ℚ) (i : ℕ) :
    Fin d → ℚ :=
  fun k =>
    pos (i - 1) k + |(z - pos (i - 1) zc) / (pos (i - 1) zc - pos i zc)| *
      (pos i k - pos (i - 1) k)

/-! ## Expansion-based evaluators (traceon-backend.c lines 482-507, 577-605,
805-861) -/

/-- The C cast `(int)` applied to the nonnegative quotient `(z-z0)/dz` used
to locate a z-interval (truncation towards zero; the evaluators only reach it
with a nonnegative argument). -/
def cIndex (q : ℚ) : ℕ := (Rat.floor q).toNat

/-- Evaluation of one 6-coefficient quintic-spline row at `diffz`
(traceon-backend.c lines 502-504 and 598-600): coefficients are ordered
`a₅..a₀`. -/
def quintic (c : ℕ → ℚ) (t : ℚ) : ℚ :=
  c 0 * t ^ 5 + c 1 * t ^ 4 + c 2 * t ^ 3 + c 3 * t ^ 2 + c 4 * t + c 5

/-- `potential_radial_derivs` (traceon-backend.c lines 482-507).  `point` is
`(r, z)`; `coeff i j c` is `coeff[i][j][c]` with `i` the z-interval, `j < 9`
the derivative order and `c < 6` the quintic coefficient. -/
def potential_radial_derivs (point : Fin 2 → ℚ) (z_inter : ℕ → ℚ)
    (coeff : ℕ → ℕ → ℕ → ℚ) (N_z : ℕ) : ℚ :=
  let r := point 0
  let z := point 1
  let z0 := z_inter 0
  let zlast := z_inter (N_z - 1)
  if ¬(z0 < z ∧ z < zlast) then 0
  else
    let dz := z_inter 1 - z_inter 0
    let index := cIndex ((z - z0) / dz)
    let diffz := z - z_inter index
    let derivs : ℕ → ℚ := fun i => quintic (coeff index i) diffz
    derivs 0 - r ^ 2 * derivs 2 + r ^ 4 / 64 * derivs 4
      - r ^ 6 / 2304 * derivs 6 + r ^ 8 / 147456 * derivs 8

/-- `field_radial_derivs` (traceon-backend.c lines 577-605).  `point` is
`(r, z, ·)`; the result is the written `field[3]`. -/
def field_radial_derivs (point : Fin 3 → ℚ) (z_inter : ℕ → ℚ)
    (coeff : ℕ → ℕ → ℕ → ℚ) (N_z : ℕ) : Vec3 :=
  let r := point 0
  let z := point 1
  let z0 := z_inter 0
  let zlast := z_inter (N_z - 1)
  if ¬(z0 < z ∧ z < zlast) then ![0, 0, 0]
  else
    let dz := z_inter 1 - z_inter 0
    let index := cIndex ((z - z0) / dz)
    let diffz := z - z_inter index
    let derivs : ℕ → ℚ := fun i => quintic (coeff index i) diffz
    ![r / 2 * (derivs 2 - r ^ 2 / 8 * derivs 4 + r ^ 4 / 192 * derivs 6
        - r ^ 6 / 9216 * derivs 8),
      -derivs 1 + r ^ 2 / 4 * derivs 3 - r ^ 4 / 64 * derivs 5
        + r ^ 6 / 2304 * derivs 7,
      0]

/-- `field_3d_derivs` (traceon-backend.c lines 805-861).  `coeffs idx p nu m c`
is `coeffs[idx][p][nu][m][c]`; `sq`, `cosq`, `sinq`, `at2` model `sqrt`,
`cos`, `sin`, `atan2`.  The result is the written `field[3]`. -/
def field_3d_derivs (sq cosq sinq : ℚ → ℚ) (at2 : ℚ → ℚ → ℚ)
    (point : Fin 3 → ℚ) (zs : ℕ → ℚ) (coeffs : ℕ → ℕ → ℕ → ℕ → ℕ → ℚ)
    (N_z : ℕ) : Vec3 :=
  let xp := point 0
  let yp := point 1
  let zp := point 2
  if ¬(zs 0 < zp ∧ zp < zs (N_z - 1)) then ![0, 0, 0]
  else
    let dz := zs 1 - zs 0
    let index := cIndex ((zp - zs 0) / dz)
    let z' := zp - zs index
    let Af : ℕ → ℕ → ℚ := fun nu m =>
      z' ^ 3 * coeffs index 0 nu m 0 + z' ^ 2 * coeffs index 0 nu m 1 +
        z' * coeffs index 0 nu m 2 + coeffs index 0 nu m 3
    let Bf : ℕ → ℕ → ℚ := fun nu m =>
      z' ^ 3 * coeffs index 1 nu m 0 + z' ^ 2 * coeffs index 1 nu m 1 +
        z' * coeffs index 1 nu m 2 + coeffs index 1 nu m 3
    let Adiff : ℕ → ℕ → ℚ := fun nu m =>
      3 * z' ^ 2 * coeffs index 0 nu m 0 + 2 * z' * coeffs index 0 nu m 1 +
        coeffs index 0 nu m 2
    let Bdiff : ℕ → ℕ → ℚ := fun nu m =>
      3 * z' ^ 2 * coeffs index 1 nu m 0 + 2 * z' * coeffs index 1 nu m 1 +
        coeffs index 1 nu m 2
    let r := norm_2d sq xp yp
    let phi := at2 yp xp
    if r < MIN_DISTANCE_AXIS then ![-Af 0 1, -Bf 0 1, -Adiff 0 0]
    else
      (List.range 4).foldl (fun (F : Vec3) (nu : ℕ) =>
        (List.range 8).foldl (fun (F : Vec3) (m : ℕ) =>
          let e : ℤ := 2 * (nu : ℤ) + (m : ℤ)
          let diff_r := (Af nu m * cosq (m * phi) + Bf nu m * sinq (m * phi)) *
            (e : ℚ) * r ^ (e - 1)
          let diff_theta := (m : ℚ) *
            (-Af nu m * sinq (m * phi) + Bf nu m * cosq (m * phi)) * r ^ e
          ![F 0 - (diff_r * xp / r + diff_theta * (-yp) / r ^ 2),
            F 1 - (diff_r * yp / r + diff_theta * xp / r ^ 2),
            F 2 - (Adiff nu m * cosq (m * phi) + Bdiff nu m * sinq (m * phi)) * r ^ e])
          F) ![0, 0, 0]

/-! ## Axial derivatives of the ring potential (traceon-backend.c lines 398-431) -/

/-- Update of a two-index buffer at one cell, modelling `derivs[i][l] = v`. -/
def upd2 (f : ℕ → ℕ → ℚ) (i l : ℕ) (v : ℚ) : ℕ → ℕ → ℚ :=
  fun a b => if a = i ∧ b = l then v else f a b

/-- The derivative array `D[9]` of `axial_derivatives_radial_ring`
(traceon-backend.c lines 422-427), built exactly as the C code does:
`D[0] = 1/R`, `D[1] = -(z0-z)/R³`, then the loop
`for(n = 1; n+1 < 9; n++) D[n+1] = -1/R²·((2n+1)·(z0-z)·D[n] + n²·D[n-1])`.
Here `dz` stands for `z0 - z`. -/
def Dcode (R dz : ℚ) : ℕ → ℚ :=
  let D0 : ℕ → ℚ := fun _ => 0
  let D1 := Function.update D0 0 (1 / R)
  let D2 := Function.update D1 1 (-dz / R ^ 3)
  ([1, 2, 3, 4, 5, 6, 7] : List ℕ).foldl
    (fun D n => Function.update D (n + 1)
      (-1 / R ^ 2 * ((2 * (n : ℚ) + 1) * dz * D n + (n : ℚ) ^ 2 * D (n - 1)))) D2

/-- The on-axis derivative sequence as the specification states it: the
three-term recurrence `D_{n+1} = -(1/R²)·((2n+1)·(z0-z)·D_n + n²·D_{n-1})`
bootstrapped with `D₀ = 1/R` and `D₁ = -(z0-z)/R³`. -/
def Dspec (R dz : ℚ) : ℕ → ℚ
  | 0 => 1 / R
  | 1 => -dz / R ^ 3
  | n + 2 => -1 / R ^ 2 *
      ((2 * ((n : ℚ) + 1) + 1) * dz * Dspec R dz (n + 1) + ((n : ℚ) + 1) ^ 2 * Dspec R dz n)

/-- The body of the innermost quadrature loop of `axial_derivatives_radial_ring`
(traceon-backend.c lines 408-429) for z-target row `i`, segment `j` and Gauss
node `k`: it adds `weight · π·r/2 · charges[j][k] · D[l]` into `derivs[i][l]`
for `l = 0..8`. -/
def ringStep (sq : ℚ → ℚ) (lines : ℕ → Fin 2 → Vec3) (charges : ℕ → ℕ → ℚ)
    (z0 : ℚ) (i j k : ℕ) (d : ℕ → ℕ → ℚ) : ℕ → ℕ → ℚ :=
  let v1 := lines j 0
  let v2 := lines j 1
  let length_factor := GAUSS_QUAD_POINTS.getD k 0 / 2 + 1 / 2
  let r := v1 0 + length_factor * (v2 0 - v1 0)
  let zz := v1 1 + length_factor * (v2 1 - v1 1)
  let length := length_2d sq v1 v2
  let weight := GAUSS_QUAD_WEIGHTS.getD k 0 * length / 2
  let R := norm_2d sq (z0 - zz) r
  let g : ℕ → ℚ := fun l => weight * M_PI * r / 2 * charges j k * Dcode R (z0 - zz) l
  (List.range 9).foldl (fun d l => upd2 d i l (d i l + g l)) d

/-- One z-target row of `axial_derivatives_radial_ring`: the `j` and `k`
loops (traceon-backend.c lines 406-430). -/
def ringRow (sq : ℚ → ℚ) (lines : ℕ → Fin 2 → Vec3) (charges : ℕ → ℕ → ℚ)
    (z0 : ℚ) (i N_lines : ℕ) (d : ℕ → ℕ → ℚ) : ℕ → ℕ → ℚ :=
  (List.range N_lines).foldl (fun d j =>
    (List.range 8).foldl (fun d k => ringStep sq lines charges z0 i j k d) d) d

/-- `axial_derivatives_radial_ring` (traceon-backend.c lines 398-431).
`derivs0` is the caller-passed `derivs` buffer (the routine accumulates with
`+=`), `lines j` is `lines[j][0..1][0..2]`, `charges j k` is `charges[j][k]`,
`z i` the target grid. -/
def axial_derivatives_radial_ring (sq : ℚ → ℚ) (derivs0 : ℕ → ℕ → ℚ)
    (lines : ℕ → Fin 2 → Vec3) (charges : ℕ → ℕ → ℚ) (N_lines : ℕ)
    (z : ℕ → ℚ) (N_z : ℕ) : ℕ → ℕ → ℚ :=
  (List.range N_z).foldl
    (fun d i => ringRow sq lines charges (z i) i N_lines d) derivs0

/-- The closed-form contribution of segment `j`, Gauss node `k` to derivative
order `l` at target `z0`, with the derivatives given by the specification
recurrence `Dspec`. -/
def ringContrib (sq : ℚ → ℚ) (lines : ℕ → Fin 2 → Vec3) (charges : ℕ → ℕ → ℚ)
    (z0 : ℚ) (j k l : ℕ) : ℚ :=
  let v1 := lines j 0
  let v2 := lines j 1
  let length_factor := GAUSS_QUAD_POINTS.getD k 0 / 2 + 1 / 2
  let r := v1 0 + length_factor * (v2 0 - v1 0)
  let zz := v1 1 + length_factor * (v2 1 - v1 1)
  let length := length_2d sq v1 v2
  let weight := GAUSS_QUAD_WEIGHTS.getD k 0 * length / 2
  let R := norm_2d sq (z0 - zz) r
  weight * M_PI * r / 2 * charges j k * Dspec R (z0 - zz) l

/-! ## Radial ring kernel and matrix assembly
(traceon-backend.c lines 378-382 and 881-1083) -/

/-- `potential_radial_ring` (traceon-backend.c lines 378-382). -/
def potential_radial_ring (lg sq : ℚ → ℚ) (r0 z0 r z : ℚ) : ℚ :=
  let rz2 := (r + r0) ^ 2 + (z - z0) ^ 2
  let t := 4 * r * r0 / rz2
  ellipk lg sq t * r / sq rz2

/-- The Legendre polynomials `legendre(N, x)` (traceon-backend.c lines
888-926).  The C function terminates the process for `N ≥ 9`; that branch is
unreachable from `log_integral` (which only passes `N < 8`) and is modelled
as `0`. -/
def legendre : ℕ → ℚ → ℚ
  | 0, _ => 1
  | 1, x => x
  | 2, x => (3 * x ^ 2 - 1) / 2
  | 3, x => (5 * x ^ 3 - 3 * x) / 2
  | 4, x => (35 * x ^ 4 - 30 * x ^ 2 + 3) / 8
  | 5, x => (63 * x ^ 5 - 70 * x ^ 3 + 15 * x) / 8
  | 6, x => (231 * x ^ 6 - 315 * x ^ 4 + 105 * x ^ 2 - 5) / 16
  | 7, x => (429 * x ^ 7 - 693 * x ^ 5 + 315 * x ^ 3 - 35 * x) / 16
  | 8, x => (6435 * x ^ 8 - 12012 * x ^ 6 + 6930 * x ^ 4 - 1260 * x ^ 2 + 35) / 128
  | _, _ => 0

/-- `legendre_coefficient` (traceon-backend.c lines 929-931). -/
def legendre_coefficient (i j : ℕ) : ℚ :=
  GAUSS_QUAD_WEIGHTS.getD j 0 * legendre i (GAUSS_QUAD_POINTS.getD j 0) *
    (2 * (i : ℚ) + 1) / 2

/-- The seven tabulated log-singular quadrature nodes `GAUSS_LOG_QUAD_POINTS`
(traceon-backend.c lines 439-445). -/
def GAUSS_LOG_QUAD_POINTS : List ℚ :=
  [0.175965211846577428056264284949e-2, 0.244696507125133674276453373497e-1,
   0.106748056858788954180259781083, 0.275807641295917383077859512057,
   0.517855142151833716158668961982, 0.771815485362384900274646869494,
   0.952841340581090558994306588503]

/-- The seven tabulated log-singular quadrature weights
`GAUSS_LOG_QUAD_WEIGHTS` (traceon-backend.c lines 447-453). -/
def GAUSS_LOG_QUAD_WEIGHTS : List ℚ :=
  [0.663266631902570511783904989051e-2, 0.457997079784753341255767348120e-1,
   0.123840208071318194550489564922, 0.212101926023811930107914875456,
   0.261390645672007725646580606859, 0.231636180290909384318815526104,
   0.118598665644451726132783641957]

/-- `log_integral` (traceon-backend.c lines 933-982): the self-panel double
quadrature combining the Gauss-log rule with the Legendre nodal expansion. -/
def log_integral (lg sq : ℚ → ℚ) (v1 v2 : Vec3) (l k : ℕ) : ℚ :=
  let length := length_2d sq v1 v2
  let length_factor := GAUSS_QUAD_POINTS.getD l 0 / 2 + 1 / 2
  let singular_point_x := v1 0 + length_factor * (v2 0 - v1 0)
  let singular_point_y := v1 1 + length_factor * (v2 1 - v1 1)
  let singular_length := length * length_factor
  (List.range 7).foldl (fun acc o =>
    let p := GAUSS_LOG_QUAD_POINTS.getD o 0
    let w := GAUSS_LOG_QUAD_WEIGHTS.getD o 0
    let length_left := singular_length - singular_length * p
    let sxl := v1 0 + length_left / length * (v2 0 - v1 0)
    let syl := v1 1 + length_left / length * (v2 1 - v1 1)
    let arg_left := 2 * length_left / length - 1
    let accl := (List.range 8).foldl (fun a m =>
      a + w * singular_length * legendre_coefficient m k * legendre m arg_left *
        potential_radial_ring lg sq singular_point_x singular_point_y sxl syl) acc
    let length_right := singular_length + (length - singular_length) * p
    let sxr := v1 0 + length_right / length * (v2 0 - v1 0)
    let syr := v1 1 + length_right / length * (v2 1 - v1 1)
    let arg_right := 2 * length_right / length - 1
    (List.range 8).foldl (fun a m =>
      a + w * (length - singular_length) * legendre_coefficient m k *
        legendre m arg_right *
        potential_radial_ring lg sq singular_point_x singular_point_y sxr syr) accl)
    0

/-- Replay of a list of stores `matrix[idx] = v` into a flat buffer. -/
def writeAll (ws : List (ℕ × ℚ)) (m : ℕ → ℚ) : ℕ → ℚ :=
  ws.foldl (fun acc w => Function.update acc w.1 w.2) m

/-- The stores performed for one voltage-type row block `i` of
`fill_matrix_radial` (traceon-backend.c lines 1027-1050): for every source
segment `j ≠ i` and node indices `l, k < 8`, the entry
`matrix[(8i+l)·N_matrix + 8j+k]` receives the weighted ring potential. -/
def voltage_row_writes (lg sq : ℚ → ℚ) (pts : ℕ → Fin 2 → Vec3)
    (N_lines N_matrix i : ℕ) : List (ℕ × ℚ) :=
  (List.range N_lines).flatMap fun j =>
    if j = i then []
    else
      let v1 := pts j 0
      let v2 := pts j 1
      let source_length := length_2d sq v1 v2
      (List.range 8).flatMap fun l =>
        let tf := GAUSS_QUAD_POINTS.getD l 0 / 2 + 1 / 2
        let tx := pts i 0 0 + tf * (pts i 1 0 - pts i 0 0)
        let ty := pts i 0 1 + tf * (pts i 1 1 - pts i 0 1)
        (List.range 8).map fun k =>
          let sf := GAUSS_QUAD_POINTS.getD k 0 / 2 + 1 / 2
          let sx := v1 0 + sf * (v2 0 - v1 0)
          let sy := v1 1 + sf * (v2 1 - v1 1)
          let weight := GAUSS_QUAD_WEIGHTS.getD k 0 * source_length / 2
          ((8 * i + l) * N_matrix + 8 * j + k,
            weight * potential_radial_ring lg sq tx ty sx sy)

/-- The stores performed by `fill_self_voltages` for row block `i`
(traceon-backend.c lines 984-1004): the diagonal self block gets the
log-singular integral. -/
def self_voltage_writes (lg sq : ℚ → ℚ) (pts : ℕ → Fin 2 → Vec3)
    (N_matrix i : ℕ) : List (ℕ × ℚ) :=
  (List.range 8).flatMap fun l =>
    (List.range 8).map fun k =>
      ((8 * i + l) * N_matrix + 8 * i + k,
        log_integral lg sq (pts i 0) (pts i 1) l k)

/-- `fill_matrix_radial` (traceon-backend.c lines 1007-1083).  Rows
`lines_range_start..lines_range_end` (inclusive) are processed: segments
tagged `VOLTAGE_FIXED = 1`, `VOLTAGE_FUN = 2` or `FLOATING_CONDUCTOR = 4`
get their voltage blocks filled; every row in the range then gets its
self block from `fill_self_voltages`.  All other tags (including
`DIELECTRIC = 3`, whose branch is commented out in this source, and unknown
tags) cause no store and no error: the function has no abort path. -/
def fill_matrix_radial (lg sq : ℚ → ℚ) (matrix0 : ℕ → ℚ)
    (pts : ℕ → Fin 2 → Vec3) (types : ℕ → ℕ) (values : ℕ → ℚ)
    (N_lines N_matrix rs re : ℕ) : ℕ → ℚ :=
  let rows := List.range' rs (re + 1 - rs)
  writeAll
    ((rows.flatMap fun i =>
        if types i = 1 ∨ types i = 2 ∨ types i = 4 then
          voltage_row_writes lg sq pts N_lines N_matrix i
        else []) ++
      rows.flatMap fun i => self_voltage_writes lg sq pts N_matrix i)
    matrix0

/-! ## 3D kernels and matrix assembly (traceon-backend.c lines 194-251,
631-644, 754-764, 1085-1133) -/

/-- `potential_3d_point` (traceon-backend.c lines 223-226). -/
def potential_3d_point (sq : ℚ → ℚ) (x0 y0 z0 x y z : ℚ) : ℚ :=
  1 / (4 * norm_3d sq (x - x0) (y - y0) (z - z0))

/-- `dx1_potential_3d_point` (traceon-backend.c lines 631-634). -/
def dx1_potential_3d_point (sq : ℚ → ℚ) (x0 y0 z0 x y z : ℚ) : ℚ :=
  (x - x0) / (4 * norm_3d sq (x - x0) (y - y0) (z - z0) ^ 3)

/-- `dy1_potential_3d_point` (traceon-backend.c lines 636-639). -/
def dy1_potential_3d_point (sq : ℚ → ℚ) (x0 y0 z0 x y z : ℚ) : ℚ :=
  (y - y0) / (4 * norm_3d sq (x - x0) (y - y0) (z - z0) ^ 3)

/-- `dz1_potential_3d_point` (traceon-backend.c lines 641-644). -/
def dz1_potential_3d_point (sq : ℚ → ℚ) (x0 y0 z0 x y z : ℚ) : ℚ :=
  (z - z0) / (4 * norm_3d sq (x - x0) (y - y0) (z - z0) ^ 3)

/-- `normal_3d` (traceon-backend.c lines 173-187): normalized cross product
of the triangle edge vectors. -/
def normal_3d (sq : ℚ → ℚ) (p1 p2 p3 : Vec3) : Vec3 :=
  let nx := (p2 1 - p1 1) * (p3 2 - p1 2) - (p3 1 - p1 1) * (p2 2 - p1 2)
  let ny := (p3 0 - p1 0) * (p2 2 - p1 2) - (p2 0 - p1 0) * (p3 2 - p1 2)
  let nz := (p2 0 - p1 0) * (p3 1 - p1 1) - (p3 0 - p1 0) * (p2 1 - p1 1)
  let length := norm_3d sq nx ny nz
  ![nx / length, ny / length, nz / length]

/-- `field_dot_normal_3d` (traceon-backend.c lines 754-764). -/
def field_dot_normal_3d (sq : ℚ → ℚ) (normal : Vec3)
    (x0 y0 z0 x y z : ℚ) : ℚ :=
  normal 0 * (-dx1_potential_3d_point sq x0 y0 z0 x y z) +
  normal 1 * (-dy1_potential_3d_point sq x0 y0 z0 x y z) +
  normal 2 * (-dz1_potential_3d_point sq x0 y0 z0 x y z)

/-- `triangle_integral` (traceon-backend.c lines 194-217): area times the
nine-point weighted sum of the integrand at the mapped barycentric points.
`triangle_integral_potential_3d_point` (lines 228-251) is the same
computation with the kernel inlined. -/
def triangle_integral (sq : ℚ → ℚ) (f : ℚ → ℚ → ℚ → ℚ → ℚ → ℚ → ℚ)
    (target v1 v2 v3 : Vec3) : ℚ :=
  let area := 1/2 * sq
    (((v2 1 - v1 1) * (v3 2 - v1 2) - (v2 2 - v1 2) * (v3 1 - v1 1)) ^ 2 +
     ((v2 2 - v1 2) * (v3 0 - v1 0) - (v2 0 - v1 0) * (v3 2 - v1 2)) ^ 2 +
     ((v2 0 - v1 0) * (v3 1 - v1 1) - (v2 1 - v1 1) * (v3 0 - v1 0)) ^ 2)
  let s := (List.range 9).foldl (fun acc q =>
    let b1 := QUAD_B1.getD q 0
    let b2 := QUAD_B2.getD q 0
    let w := QUAD_WEIGHTS.getD q 0
    let x := v1 0 + b1 * (v2 0 - v1 0) + b2 * (v3 0 - v1 0)
    let y := v1 1 + b1 * (v2 1 - v1 1) + b2 * (v3 1 - v1 1)
    let z := v1 2 + b1 * (v2 2 - v1 2) + b2 * (v3 2 - v1 2)
    acc + w * f (target 0) (target 1) (target 2) x y z) 0
  area * s

/-- Fold a row-filling action over a list of row indices in the `Except`
monad, stopping at the first error: this models a loop whose body can call
`exit(1)`. -/
def exceptFold (f : (ℕ → ℚ) → ℕ → Except Unit (ℕ → ℚ)) :
    List ℕ → (ℕ → ℚ) → Except Unit (ℕ → ℚ)
  | [], m => .ok m
  | i :: rest, m =>
    match f m i with
    | .error e => .error e
    | .ok m1 => exceptFold f rest m1

/-- One row of `fill_matrix_3d` (traceon-backend.c lines 1097-1131):
voltage-type tags (1, 2, 4) fill the row with centroid potential integrals;
`DIELECTRIC = 3` fills it with the weighted field-dot-normal integrals and
subtracts 1 on the diagonal; any other tag reaches the
`printf("ExcitationType unknown"); exit(1);` branch, modelled as
`Except.error ()`. -/
def fill_row_3d (sq : ℚ → ℚ) (tri : ℕ → Fin 3 → Vec3) (types : ℕ → ℕ)
    (values : ℕ → ℚ) (N_lines N_matrix : ℕ) (m : ℕ → ℚ) (i : ℕ) :
    Except Unit (ℕ → ℚ) :=
  let p1 := tri i 0
  let p2 := tri i 1
  let p3 := tri i 2
  let target : Vec3 := ![(p1 0 + p2 0 + p3 0) / 3, (p1 1 + p2 1 + p3 1) / 3,
    (p1 2 + p2 2 + p3 2) / 3]
  if types i = 1 ∨ types i = 2 ∨ types i = 4 then
    .ok (writeAll ((List.range N_lines).map fun j =>
      (i * N_matrix + j,
        triangle_integral sq (potential_3d_point sq) target
          (tri j 0) (tri j 1) (tri j 2))) m)
  else if types i = 3 then
    let normal := normal_3d sq p1 p2 p3
    let K := values i
    let factor := (2 * K - 2) / (M_PI * (1 + K))
    .ok (writeAll ((List.range N_lines).map fun j =>
      (i * N_matrix + j,
        factor * triangle_integral sq (field_dot_normal_3d sq normal) target
            (tri j 0) (tri j 1) (tri j 2) -
          if i = j then 1 else 0)) m)
  else .error ()

/-- `fill_matrix_3d` (traceon-backend.c lines 1085-1133): rows
`lines_range_start..lines_range_end` inclusive, stopping fatally at the
first row whose excitation tag is unknown. -/
def fill_matrix_3d (sq : ℚ → ℚ) (matrix0 : ℕ → ℚ) (tri : ℕ → Fin 3 → Vec3)
    (types : ℕ → ℕ) (values : ℕ → ℚ) (N_lines N_matrix rs re : ℕ) :
    Except Unit (ℕ → ℚ) :=
  exceptFold (fill_row_3d sq tri types values N_lines N_matrix)
    (List.range' rs (re + 1 - rs)) matrix0

/-! ## Concrete instances used to exercise the definitions -/

/-- Two concrete radial segments: segment `j` runs from `(j+1, 0)` to
`(j+1, 1)` in the `(r, z)` plane. -/
def cexSegs : ℕ → Fin 2 → Vec3 := fun j v => ![(j : ℚ) + 1, (v : ℚ), 0]

/-- A concrete excitation tagging: row 0 carries the unknown tag `5`,
all others are `VOLTAGE_FIXED = 1`. -/
def cexTypes : ℕ → ℕ := fun i => if i = 0 then 5 else 1

/-- A concrete (degenerate-position) triangle table; only the tags matter
for the abort behaviour. -/
def cexTri : ℕ → Fin 3 → Vec3 := fun j v => ![(v : ℚ), (j : ℚ), 0]

/-- The zero field `E = 0`. -/
def zeroField : Vec6 → Vec3 := fun _ => ![0, 0, 0]

/-- A starting state outside the test box `boundsA`: position `(5, 0, 0)`,
velocity `(0, 0, 1)`. -/
def posA : Vec6 := fun i => if i = 0 then 5 else if i = 5 then 1 else 0

/-- A degenerate bounding box containing only the origin. -/
def boundsA : Fin 3 → ℚ × ℚ := fun _ => (0, 0)

/-- A starting state at the origin with unit axial velocity. -/
def posB : Vec6 := fun i => if i = 5 then 1 else 0

/-- The tracer state at `posB` before any step, with `h = hmax = 1/100`. -/
def s0 : TraceState :=
  { y := posB, h := 1/100, N := 1, times := [0], poss := [posB], writes := [] }

/-- The trivial z-grid sitting entirely at `0`. -/
def zsC : ℕ → ℚ := fun _ => 0

/-- The z-grid `0, 1, 2, ...` with unit spacing. -/
def zsW : ℕ → ℚ := fun n => (n : ℚ)

/-- A constant radial spline-coefficient table (all coefficients `1`). -/
def coeffW : ℕ → ℕ → ℕ → ℚ := fun _ _ _ => 1

/-- A constant 3D spline-coefficient table (all coefficients `1`). -/
def coeffW5 : ℕ → ℕ → ℕ → ℕ → ℕ → ℚ := fun _ _ _ _ _ => 1

/-- The recorded 2D trajectory of scenario S5: z-coordinates
`0, 1/2, 3/2, 5/2`; the other state components of sample `i` are `i`. -/
def posS5 : ℕ → Fin 4 → ℚ := fun i k =>
  if k = 1 then
    (if i = 0 then 0 else if i = 1 then 1/2 else if i = 2 then 3/2 else 5/2)
  else (i : ℚ)

/-- One concrete radial segment from `(1, 0)` to `(1, 1)`. -/
def linesW : ℕ → Fin 2 → Vec3 := fun _ v => ![1, (v : ℚ), 0]

/-- Unit nodal charges. -/
def chargesW : ℕ → ℕ → ℚ := fun _ _ => 1

/-- The zero two-index buffer. -/
def derivs0W : ℕ → ℕ → ℚ := fun _ _ => 0

/-- The state `trace_particle` builds from `posA` before any loop iteration:
`h = hmax = TRACING_STEP_MAX / ‖v‖ = 1/100`. -/
def initA : TraceState :=
  { y := posA, h := TRACING_STEP_MAX / norm_3d id (posA 3) (posA 4) (posA 5),
    N := 1, times := [0], poss := [posA], writes := [] }

/-! ## Theorems -/

/-- C9 (counterexample): the tabulated weights do not sum to exactly 2
resp. 1: the Gauss-Legendre line weights sum to `2 + 2·10⁻¹⁶` and the
triangle weights to `1 - 10⁻¹⁵`. -/
theorem quad_weights_sums_not_exact :
    ¬(GAUSS_QUAD_WEIGHTS.sum = 2 ∧ QUAD_WEIGHTS.sum = 1) := by
  norm_num [GAUSS_QUAD_WEIGHTS, QUAD_WEIGHTS]

/-- C9 (amended): the exact values of the two weight sums: the tabulated
line-rule weights sum to `2 + 1/5·10⁻¹⁶` and the tabulated triangle-rule
weights to `1 - 10⁻¹⁵`, i.e. each rule's weights sum to its exact total only
up to one part in `10¹⁵`. -/
theorem quad_weights_sums_exact :
    GAUSS_QUAD_WEIGHTS.sum = 2 + 1 / 5000000000000000 ∧
    QUAD_WEIGHTS.sum = 1 - 1 / 1000000000000000 := by
  norm_num [GAUSS_QUAD_WEIGHTS, QUAD_WEIGHTS]

/-- C4 (counterexample): at `m = -1/2` (and with the modelled `log`, `sqrt`
instantiated to `id`), `ellipk` evaluates the Chebyshev approximant directly
instead of the Landen-mapped value: the two disagree. -/
theorem ellipk_direct_on_neg_unit_interval :
    ellipk id id (-1/2) ≠
      ellipk_singularity id (1 - 1 / (1 - (-1/2))) / id (1 - (-1/2)) := by
  norm_num [ellipk, ellipk_singularity, ellipkA, ellipkB, List.range_succ]

/-- C4 (amended): for every `m ≤ -1` the code computes `ellipk m` by the
Landen-type identity `ellipk_singularity (1 - 1/(1-m)) / sqrt (1-m)`; the
branch condition at traceon-backend.c line 93 is `m > -1`, so arguments in
`(-1, 0)` take the direct approximant instead. -/
theorem ellipk_landen_below_minus_one (lg sq : ℚ → ℚ) (m : ℚ) (hm : m ≤ -1) :
    ellipk lg sq m = ellipk_singularity lg (1 - 1 / (1 - m)) / sq (1 - m) := by
  rw [ellipk, if_neg (not_lt.mpr (by linarith))]

/-- Witness for `ellipk_landen_below_minus_one` at `m = -2`. -/
theorem ellipk_landen_witness :
    ellipk id id (-2) = ellipk_singularity id (1 - 1 / (1 - (-2))) / id (1 - (-2)) :=
  ellipk_landen_below_minus_one id id (-2) (by norm_num)

/-- C5 (confirmed): whenever the evaluation point's z-coordinate is not
strictly inside the z-grid range, `potential_radial_derivs` returns `0` and
`field_radial_derivs` / `field_3d_derivs` write the zero field vector, for
every coefficient table and every instantiation of the modelled `libm`
primitives. -/
theorem expansion_evaluators_zero_outside_range
    (sq cosq sinq : ℚ → ℚ) (at2 : ℚ → ℚ → ℚ)
    (p2 : Fin 2 → ℚ) (p3 q3 : Vec3) (z_inter : ℕ → ℚ)
    (coeff : ℕ → ℕ → ℕ → ℚ) (coeffs : ℕ → ℕ → ℕ → ℕ → ℕ → ℚ) (N_z : ℕ)
    (h1 : ¬(z_inter 0 < p2 1 ∧ p2 1 < z_inter (N_z - 1)))
    (h2 : ¬(z_inter 0 < p3 1 ∧ p3 1 < z_inter (N_z - 1)))
    (h3 : ¬(z_inter 0 < q3 2 ∧ q3 2 < z_inter (N_z - 1))) :
    potential_radial_derivs p2 z_inter coeff N_z = 0 ∧
    field_radial_derivs p3 z_inter coeff N_z = ![0, 0, 0] ∧
    field_3d_derivs sq cosq sinq at2 q3 z_inter coeffs N_z = ![0, 0, 0] := by
  refine ⟨?_, ?_, ?_⟩
  · simp only [potential_radial_derivs]
    rw [if_pos h1]
  · simp only [field_radial_derivs]
    rw [if_pos h2]
  · simp only [field_3d_derivs]
    rw [if_pos h3]

/-- Witness for `expansion_evaluators_zero_outside_range`: a one-point grid
at `z = 0` and evaluation points with `z = 5`. -/
theorem expansion_evaluators_zero_outside_range_witness :
    potential_radial_derivs ![1, 5] zsC coeffW 1 = 0 ∧
    field_radial_derivs ![1, 5, 0] zsC coeffW 1 = ![0, 0, 0] ∧
    field_3d_derivs id id id (fun _ _ => 0) ![1, 2, 5] zsC coeffW5 1 = ![0, 0, 0] :=
  expansion_evaluators_zero_outside_range id id id (fun _ _ => 0)
    ![1, 5] ![1, 5, 0] ![1, 2, 5] zsC coeffW coeffW5 1
    (by simp [zsC]) (by simp [zsC]) (by simp [zsC])

/-- Helper: the backward walk returns `false` when no examined pair
straddles the plane. -/
theorem xpi_aux_not_found {d : ℕ} (pos : ℕ → Fin d → ℚ) (zc : Fin d) (z : ℚ) :
    ∀ n, (∀ i, 1 ≤ i → i ≤ n → ¬ straddles pos zc z i) →
      xpi_aux pos zc z n = none := by
  intro n
  induction n with
  | zero => intro _; rfl
  | succ n ih =>
    intro h
    simp only [xpi_aux]
    rw [if_neg]
    · exact ih fun i h1 h2 => h i h1 (Nat.le_succ_of_le h2)
    · simpa [straddles] using h (n + 1) (by omega) le_rfl

/-- Helper: the backward walk stops at the largest straddling pair index and
returns its interpolation. -/
theorem xpi_aux_found {d : ℕ} (pos : ℕ → Fin d → ℚ) (zc : Fin d) (z : ℚ)
    (i : ℕ) (hi : 1 ≤ i) (hs : straddles pos zc z i) :
    ∀ n, i ≤ n → (∀ j, i < j → j ≤ n → ¬ straddles pos zc z j) →
      xpi_aux pos zc z n = some (xpiInterp pos zc z i) := by
  intro n
  induction n with
  | zero => intro h _; omega
  | succ n ih =>
    intro hin hnone
    simp only [xpi_aux]
    by_cases hc : i = n + 1
    · subst hc
      rw [if_pos (by simpa [straddles] using hs)]
      rfl
    · rw [if_neg (by simpa [straddles] using hnone (n + 1) (by omega) le_rfl)]
      exact ih (by omega) fun j h1 h2 => hnone j h1 (by omega)

/-- C6 (confirmed): `xy_plane_intersection_2d` / `xy_plane_intersection_3d`
walk backward from the last stored state; if pair `(i-1, i)` straddles
`z = z*` and no later pair does, the result is `true` with every component
linearly interpolated at `λ = |z* - z₁| / |z₁ - z₂|`; if no consecutive pair
straddles, the result is `false`. -/
theorem xy_plane_intersection_spec :
    (∀ (pos : ℕ → Fin 4 → ℚ) (N_p : ℕ) (z : ℚ) (i : ℕ),
      1 ≤ i → i < N_p → straddles pos 1 z i →
      (∀ j, j < N_p → i < j → ¬ straddles pos 1 z j) →
      xy_plane_intersection_2d pos N_p z = some (xpiInterp pos 1 z i)) ∧
    (∀ (pos : ℕ → Fin 4 → ℚ) (N_p : ℕ) (z : ℚ),
      (∀ i, i < N_p → 1 ≤ i → ¬ straddles pos 1 z i) →
      xy_plane_intersection_2d pos N_p z = none) ∧
    (∀ (pos : ℕ → Fin 6 → ℚ) (N_p : ℕ) (z : ℚ) (i : ℕ),
      1 ≤ i → i < N_p → straddles pos 2 z i →
      (∀ j, j < N_p → i < j → ¬ straddles pos 2 z j) →
      xy_plane_intersection_3d pos N_p z = some (xpiInterp pos 2 z i)) ∧
    (∀ (pos : ℕ → Fin 6 → ℚ) (N_p : ℕ) (z : ℚ),
      (∀ i, i < N_p → 1 ≤ i → ¬ straddles pos 2 z i) →
      xy_plane_intersection_3d pos N_p z = none) := by
  refine ⟨?_, ?_, ?_, ?_⟩
  · intro pos N_p z i h1 h2 h3 h4
    exact xpi_aux_found pos 1 z i h1 h3 (N_p - 1) (by omega)
      fun j hj1 hj2 => h4 j (by omega) hj1
  · intro pos N_p z h
    exact xpi_aux_not_found pos 1 z (N_p - 1) fun i h1 h2 => h i (by omega) h1
  · intro pos N_p z i h1 h2 h3 h4
    exact xpi_aux_found pos 2 z i h1 h3 (N_p - 1) (by omega)
      fun j hj1 hj2 => h4 j (by omega) hj1
  · intro pos N_p z h
    exact xpi_aux_not_found pos 2 z (N_p - 1) fun i h1 h2 => h i (by omega) h1

/-- Witness for `xy_plane_intersection_spec`: scenario S5 (z-samples
`0, 1/2, 3/2, 5/2`, plane `z = 1`) intersects between samples 1 and 2. -/
theorem xy_plane_intersection_witness :
    xy_plane_intersection_2d posS5 4 1 = some (xpiInterp posS5 1 1 2) :=
  xy_plane_intersection_spec.1 posS5 4 1 2 (by decide) (by decide)
    (by norm_num [straddles, posS5, min_def, max_def])
    (by intro j h1 h2; interval_cases j <;>
          norm_num [straddles, posS5, min_def, max_def])

/-- C8 (confirmed): inside the z-range, `field_radial_derivs` locates the
z-interval, evaluates the nine quintic-spline rows at
`diffz = z - z_grid[index]`, and writes
`E_r = (r/2)·(D₂ - r²/8·D₄ + r⁴/192·D₆ - r⁶/9216·D₈)`,
`E_z = -D₁ + r²/4·D₃ - r⁴/64·D₅ + r⁶/2304·D₇`, `E_φ = 0`; at `r = 0` the
field is exactly `(0, -D₁, 0)`. -/
theorem field_radial_derivs_formula (point : Vec3) (z_inter : ℕ → ℚ)
    (coeff : ℕ → ℕ → ℕ → ℚ) (N_z : ℕ)
    (h1 : z_inter 0 < point 1) (h2 : point 1 < z_inter (N_z - 1)) :
    (field_radial_derivs point z_inter coeff N_z =
      (let r := point 0
       let index := cIndex ((point 1 - z_inter 0) / (z_inter 1 - z_inter 0))
       let D : ℕ → ℚ := fun i => quintic (coeff index i) (point 1 - z_inter index)
       ![r / 2 * (D 2 - r ^ 2 / 8 * D 4 + r ^ 4 / 192 * D 6 - r ^ 6 / 9216 * D 8),
         -D 1 + r ^ 2 / 4 * D 3 - r ^ 4 / 64 * D 5 + r ^ 6 / 2304 * D 7,
         0])) ∧
    (point 0 = 0 →
      field_radial_derivs point z_inter coeff N_z =
        ![0,
          -quintic
            (coeff (cIndex ((point 1 - z_inter 0) / (z_inter 1 - z_inter 0))) 1)
            (point 1 -
              z_inter (cIndex ((point 1 - z_inter 0) / (z_inter 1 - z_inter 0)))),
          0]) := by
  constructor
  · simp only [field_radial_derivs]
    rw [if_neg (not_not_intro ⟨h1, h2⟩)]
  · intro hr
    simp only [field_radial_derivs]
    rw [if_neg (not_not_intro ⟨h1, h2⟩)]
    funext k
    fin_cases k <;> simp [hr] <;> ring

/-- Witness for `field_radial_derivs_formula`: the grid `0, 1, 2` with the
constant coefficient table, evaluated on the axis at `z = 3/2`. -/
theorem field_radial_derivs_formula_witness :
    field_radial_derivs ![0, 3/2, 0] zsW coeffW 3 =
      ![0,
        -quintic (coeffW (cIndex ((3/2 - zsW 0) / (zsW 1 - zsW 0))) 1)
          (3/2 - zsW (cIndex ((3/2 - zsW 0) / (zsW 1 - zsW 0)))),
        0] :=
  (field_radial_derivs_formula ![0, 3/2, 0] zsW coeffW 3
    (by norm_num [zsW]) (by norm_num [zsW])).2 rfl

/-- Helper: the `D` array built by the C loop agrees with the specification
recurrence on all nine entries. -/
theorem Dcode_eq_Dspec (R dz : ℚ) (l : ℕ) (hl : l < 9) :
    Dcode R dz l = Dspec R dz l := by
  interval_cases l <;> (simp [Dcode, Dspec, Function.update]; try ring_nf; try tauto)

/-- Helper: a loop of `derivs[i][l] += g l` over `l < n` adds `g b` at every
cell `(i, b)` with `b < n` and leaves all other cells unchanged. -/
theorem foldl_upd2_row (g : ℕ → ℚ) (i : ℕ) :
    ∀ (n : ℕ) (d : ℕ → ℕ → ℚ) (a b : ℕ),
      ((List.range n).foldl (fun d l => upd2 d i l (d i l + g l)) d) a b =
        if a = i ∧ b < n then d a b + g b else d a b := by
  intro n
  induction n with
  | zero => intro d a b; simp
  | succ n ih =>
    intro d a b
    simp only [List.range_succ, List.foldl_append, List.foldl_cons, List.foldl_nil, upd2]
    rw [ih, ih]
    by_cases h : a = i ∧ b = n
    · obtain ⟨ha, hb⟩ := h
      subst ha
      subst hb
      rw [if_pos ⟨rfl, rfl⟩, if_neg (by omega : ¬(a = a ∧ b < b)),
        if_pos ⟨rfl, Nat.lt_succ_self b⟩]
    · rw [if_neg h]
      by_cases h2 : a = i ∧ b < n
      · rw [if_pos h2, if_pos ⟨h2.1, by omega⟩]
      · rw [if_neg h2, if_neg (by omega : ¬(a = i ∧ b < n + 1))]

/-- Helper: one quadrature-node step of `axial_derivatives_radial_ring` adds
the node's `ringContrib` on row `i` and leaves everything else unchanged. -/
theorem ringStep_apply (sq : ℚ → ℚ) (lines : ℕ → Fin 2 → Vec3)
    (charges : ℕ → ℕ → ℚ) (z0 : ℚ) (i j k : ℕ) (d : ℕ → ℕ → ℚ) (a b : ℕ) :
    ringStep sq lines charges z0 i j k d a b =
      if a = i ∧ b < 9 then d a b + ringContrib sq lines charges z0 j k b
      else d a b := by
  simp only [ringStep, ringContrib]
  rw [foldl_upd2_row]
  by_cases h : a = i ∧ b < 9
  · rw [if_pos h, if_pos h, Dcode_eq_Dspec _ _ b h.2]
  · rw [if_neg h, if_neg h]

/-- Helper: the Gauss-node loop over `k < n` accumulates the node sum on
row `i`. -/
theorem foldl_ringStep (sq : ℚ → ℚ) (lines : ℕ → Fin 2 → Vec3)
    (charges : ℕ → ℕ → ℚ) (z0 : ℚ) (i j : ℕ) :
    ∀ (n : ℕ) (d : ℕ → ℕ → ℚ) (a b : ℕ),
      ((List.range n).foldl (fun d k => ringStep sq lines charges z0 i j k d) d) a b =
        if a = i ∧ b < 9 then
          d a b + ∑ k ∈ Finset.range n, ringContrib sq lines charges z0 j k b
        else d a b := by
  intro n
  induction n with
  | zero =>
    intro d a b
    simp only [List.range_zero, List.foldl_nil, Finset.range_zero,
      Finset.sum_empty, add_zero, ite_self]
  | succ n ih =>
    intro d a b
    simp only [List.range_succ, List.foldl_append, List.foldl_cons, List.foldl_nil]
    rw [ringStep_apply, ih]
    by_cases h : a = i ∧ b < 9
    · rw [if_pos h, if_pos h, if_pos h, Finset.sum_range_succ]
      ring
    · rw [if_neg h, if_neg h, if_neg h]

/-- Helper: one z-target row of the assembly adds the full segment/node
double sum on row `i`. -/
theorem ringRow_apply (sq : ℚ → ℚ) (lines : ℕ → Fin 2 → Vec3)
    (charges : ℕ → ℕ → ℚ) (z0 : ℚ) (i : ℕ) :
    ∀ (N_lines : ℕ) (d : ℕ → ℕ → ℚ) (a b : ℕ),
      ringRow sq lines charges z0 i N_lines d a b =
        if a = i ∧ b < 9 then
          d a b + ∑ j ∈ Finset.range N_lines, ∑ k ∈ Finset.range 8,
            ringContrib sq lines charges z0 j k b
        else d a b := by
  intro n
  induction n with
  | zero =>
    intro d a b
    simp only [ringRow, List.range_zero, List.foldl_nil, Finset.range_zero,
      Finset.sum_empty, add_zero, ite_self]
  | succ n ih =>
    intro d a b
    simp only [ringRow]
    rw [show List.range (n + 1) = List.range n ++ [n] from List.range_succ n]
    simp only [List.foldl_append, List.foldl_cons, List.foldl_nil]
    rw [foldl_ringStep]
    have ihr : ∀ (d : ℕ → ℕ → ℚ) (a b : ℕ),
        ((List.range n).foldl (fun d j =>
          (List.range 8).foldl (fun d k => ringStep sq lines charges z0 i j k d) d) d) a b =
          if a = i ∧ b < 9 then
            d a b + ∑ j ∈ Finset.range n, ∑ k ∈ Finset.range 8,
              ringContrib sq lines charges z0 j k b
          else d a b := fun d a b => ih d a b
    rw [ihr]
    by_cases h : a = i ∧ b < 9
    · rw [if_pos h, if_pos h, if_pos h,
        Finset.sum_range_succ
          (fun j => ∑ k ∈ Finset.range 8, ringContrib sq lines charges z0 j k b) n]
      ring
    · rw [if_neg h, if_neg h, if_neg h]

/-- Helper: full characterization of `axial_derivatives_radial_ring` as the
initial buffer plus the closed-form double sum on every in-range cell. -/
theorem axial_derivatives_apply (sq : ℚ → ℚ) (lines : ℕ → Fin 2 → Vec3)
    (charges : ℕ → ℕ → ℚ) (N_lines : ℕ) (z : ℕ → ℚ) :
    ∀ (N_z : ℕ) (derivs0 : ℕ → ℕ → ℚ) (a b : ℕ),
      axial_derivatives_radial_ring sq derivs0 lines charges N_lines z N_z a b =
        if a < N_z ∧ b < 9 then
          derivs0 a b + ∑ j ∈ Finset.range N_lines, ∑ k ∈ Finset.range 8,
            ringContrib sq lines charges (z a) j k b
        else derivs0 a b := by
  intro n
  induction n with
  | zero =>
    intro d a b
    simp only [axial_derivatives_radial_ring, List.range_zero, List.foldl_nil]
    rw [if_neg (by omega)]
  | succ n ih =>
    intro d a b
    simp only [axial_derivatives_radial_ring]
    rw [show List.range (n + 1) = List.range n ++ [n] from List.range_succ n]
    simp only [List.foldl_append, List.foldl_cons, List.foldl_nil]
    rw [ringRow_apply]
    have ihr : ∀ (a b : ℕ),
        ((List.range n).foldl (fun d i => ringRow sq lines charges (z i) i N_lines d) d) a b =
          if a < n ∧ b < 9 then
            d a b + ∑ j ∈ Finset.range N_lines, ∑ k ∈ Finset.range 8,
              ringContrib sq lines charges (z a) j k b
          else d a b := fun a b => ih d a b
    rw [ihr]
    by_cases h : a = n ∧ b < 9
    · obtain ⟨ha, hb⟩ := h
      subst ha
      rw [if_pos ⟨rfl, hb⟩, if_neg (by omega : ¬(a < a ∧ b < 9)),
        if_pos ⟨Nat.lt_succ_self a, hb⟩]
    · by_cases h2 : a < n ∧ b < 9
      · rw [if_neg h, if_pos h2, if_pos ⟨by omega, h2.2⟩]
      · rw [if_neg h, if_neg h2, if_neg (by omega : ¬(a < n + 1 ∧ b < 9))]

/-- C7 (confirmed): `axial_derivatives_radial_ring` adds, into every cell
`derivs[a][b]` with `a < N_z`, `b < 9`, the sum over segments and Gauss
nodes of `weight · π·r/2 · charge · D_b`, with the nine derivatives `D`
given exactly by the three-term recurrence
`D_{n+1} = -(1/R²)·((2n+1)·(z0-z)·D_n + n²·D_{n-1})` bootstrapped with
`D₀ = 1/R`, `D₁ = -(z0-z)/R³` (definition `Dspec`), not by numerical
differentiation. -/
theorem axial_derivatives_recurrence (sq : ℚ → ℚ) (derivs0 : ℕ → ℕ → ℚ)
    (lines : ℕ → Fin 2 → Vec3) (charges : ℕ → ℕ → ℚ) (N_lines : ℕ)
    (z : ℕ → ℚ) (N_z : ℕ) (a b : ℕ) (ha : a < N_z) (hb : b < 9) :
    axial_derivatives_radial_ring sq derivs0 lines charges N_lines z N_z a b =
      derivs0 a b + ∑ j ∈ Finset.range N_lines, ∑ k ∈ Finset.range 8,
        ringContrib sq lines charges (z a) j k b := by
  rw [axial_derivatives_apply, if_pos ⟨ha, hb⟩]

/-- Witness for `axial_derivatives_recurrence`: one segment, one z-target,
derivative order 3. -/
theorem axial_derivatives_recurrence_witness :
    axial_derivatives_radial_ring id derivs0W linesW chargesW 1 zsC 1 0 3 =
      derivs0W 0 3 + ∑ j ∈ Finset.range 1, ∑ k ∈ Finset.range 8,
        ringContrib id linesW chargesW (zsC 0) j k 3 :=
  axial_derivatives_recurrence id derivs0W linesW chargesW 1 zsC 1 0 3
    (by decide) (by decide)

/-- Helper: a buffer cell not named by any store keeps its original value. -/
theorem writeAll_notMem :
    ∀ (ws : List (ℕ × ℚ)) (m : ℕ → ℚ) (p : ℕ),
      (∀ w ∈ ws, w.1 ≠ p) → writeAll ws m p = m p := by
  intro ws
  induction ws with
  | nil => intro m p _; rfl
  | cons w rest ih =>
    intro m p h
    have hstep : writeAll (w :: rest) m = writeAll rest (Function.update m w.1 w.2) := rfl
    rw [hstep, ih _ p fun x hx => h x (List.mem_cons_of_mem _ hx),
      Function.update_noteq (Ne.symm (h w (List.mem_cons_self w rest)))]

/-- Helper: row-major index pairs `(block, offset)` with in-range offsets are
uniquely decodable. -/
theorem mulAddLt_inj {M a1 c1 a2 c2 : ℕ} (h1 : c1 < M) (h2 : c2 < M)
    (he : a1 * M + c1 = a2 * M + c2) : a1 = a2 ∧ c1 = c2 := by
  have hM : 0 < M := lt_of_le_of_lt (Nat.zero_le c1) h1
  have e1 : (a1 * M + c1) / M = a1 := by
    rw [Nat.mul_comm, Nat.add_comm, Nat.add_mul_div_left c1 a1 hM,
      Nat.div_eq_of_lt h1, Nat.zero_add]
  have e2 : (a2 * M + c2) / M = a2 := by
    rw [Nat.mul_comm, Nat.add_comm, Nat.add_mul_div_left c2 a2 hM,
      Nat.div_eq_of_lt h2, Nat.zero_add]
  have ha : a1 = a2 := by rw [← e1, ← e2, he]
  subst ha
  exact ⟨rfl, by omega⟩

/-- Helper: the first store index of every element of `voltage_row_writes`. -/
theorem voltage_row_writes_fst (lg sq : ℚ → ℚ) (pts : ℕ → Fin 2 → Vec3)
    (N_lines N_matrix i : ℕ) (w : ℕ × ℚ)
    (hw : w ∈ voltage_row_writes lg sq pts N_lines N_matrix i) :
    ∃ j l k, j < N_lines ∧ j ≠ i ∧ l < 8 ∧ k < 8 ∧
      w.1 = (8 * i + l) * N_matrix + (8 * j + k) := by
  simp only [voltage_row_writes, List.mem_flatMap, List.mem_range] at hw
  obtain ⟨j, hj, hw⟩ := hw
  by_cases hji : j = i
  · rw [if_pos hji] at hw
    exact absurd hw (List.not_mem_nil w)
  · rw [if_neg hji] at hw
    simp only [List.mem_flatMap, List.mem_map, List.mem_range] at hw
    obtain ⟨l, hl, k, hk, hww⟩ := hw
    exact ⟨j, l, k, hj, hji, hl, hk, by
      rw [← hww]
      exact Nat.add_assoc ((8 * i + l) * N_matrix) (8 * j) k⟩

/-- Helper: the first store index of every element of `self_voltage_writes`. -/
theorem self_voltage_writes_fst (lg sq : ℚ → ℚ) (pts : ℕ → Fin 2 → Vec3)
    (N_matrix i : ℕ) (w : ℕ × ℚ)
    (hw : w ∈ self_voltage_writes lg sq pts N_matrix i) :
    ∃ l k, l < 8 ∧ k < 8 ∧ w.1 = (8 * i + l) * N_matrix + (8 * i + k) := by
  simp only [self_voltage_writes, List.mem_flatMap, List.mem_map, List.mem_range] at hw
  obtain ⟨l, hl, k, hk, hww⟩ := hw
  exact ⟨l, k, hl, hk, by
    rw [← hww]
    exact Nat.add_assoc ((8 * i + l) * N_matrix) (8 * i) k⟩

/-- Helper: `fill_matrix_radial` performs no store at all into an entry of a
row block whose excitation tag is not a voltage-type tag, outside the row's
own self block: the entry keeps the caller-passed value.  The hypothesis
`re < N_lines` mirrors the `assert(lines_range_end < N_lines)` at
traceon-backend.c line 1016, and `N_matrix = 8·N_lines` mirrors the assert
at line 1017. -/
theorem fill_matrix_radial_bad_row_untouched (lg sq : ℚ → ℚ) (m0 : ℕ → ℚ)
    (pts : ℕ → Fin 2 → Vec3) (types : ℕ → ℕ) (values : ℕ → ℚ)
    (N_lines rs re i l j k : ℕ)
    (hre : re < N_lines)
    (ht1 : types i ≠ 1) (ht2 : types i ≠ 2) (ht4 : types i ≠ 4)
    (hl : l < 8) (hk : k < 8) (hj : j < N_lines) (hji : j ≠ i) :
    fill_matrix_radial lg sq m0 pts types values N_lines (8 * N_lines) rs re
        ((8 * i + l) * (8 * N_lines) + (8 * j + k)) =
      m0 ((8 * i + l) * (8 * N_lines) + (8 * j + k)) := by
  have hNl : 0 < N_lines := by omega
  apply writeAll_notMem
  intro w hw
  rcases List.mem_append.1 hw with hw | hw
  · rcases List.mem_flatMap.1 hw with ⟨i', hi', hw⟩
    by_cases hg : types i' = 1 ∨ types i' = 2 ∨ types i' = 4
    · rw [if_pos hg] at hw
      obtain ⟨j', l', k', hj', hji', hl', hk', hfst⟩ :=
        voltage_row_writes_fst lg sq pts N_lines (8 * N_lines) i' w hw
      have hii : i' ≠ i := by rintro rfl; tauto
      rw [hfst]
      intro he
      obtain ⟨hrow, _⟩ := mulAddLt_inj (by omega) (by omega) he
      omega
    · rw [if_neg hg] at hw
      exact absurd hw (List.not_mem_nil w)
  · rcases List.mem_flatMap.1 hw with ⟨i', hi', hw⟩
    have hi'lt : i' < N_lines := by
      have := List.mem_range'_1.mp hi'
      omega
    obtain ⟨l', k', hl', hk', hfst⟩ :=
      self_voltage_writes_fst lg sq pts (8 * N_lines) i' w hw
    rw [hfst]
    intro he
    obtain ⟨hrow, hcol⟩ := mulAddLt_inj (by omega) (by omega) he
    omega

/-- Helper: a fatal row makes the whole `Except` fold fatal. -/
theorem exceptFold_error (f : (ℕ → ℚ) → ℕ → Except Unit (ℕ → ℚ)) (i : ℕ)
    (hf : ∀ m, f m i = .error ()) :
    ∀ (xs : List ℕ) (m : ℕ → ℚ), i ∈ xs → exceptFold f xs m = .error () := by
  intro xs
  induction xs with
  | nil => intro m h; exact absurd h (List.not_mem_nil i)
  | cons x rest ih =>
    intro m h
    cases hfx : f m x with
    | error e =>
      cases e
      simp only [exceptFold, hfx]
    | ok m1 =>
      simp only [exceptFold, hfx]
      rcases List.mem_cons.1 h with rfl | h2
      · rw [hf m] at hfx
        cases hfx
      · exact ih m1 h2

/-- Helper: `fill_matrix_3d` aborts whenever some row in the processed range
carries an excitation tag outside `{1, 2, 3, 4}`. -/
theorem fill_matrix_3d_unknown_tag_error (sq : ℚ → ℚ) (m0 : ℕ → ℚ)
    (tri : ℕ → Fin 3 → Vec3) (types : ℕ → ℕ) (values : ℕ → ℚ)
    (N_lines N_matrix rs re i : ℕ) (hrs : rs ≤ i) (hre : i ≤ re)
    (ht1 : types i ≠ 1) (ht2 : types i ≠ 2) (ht3 : types i ≠ 3)
    (ht4 : types i ≠ 4) :
    fill_matrix_3d sq m0 tri types values N_lines N_matrix rs re =
      .error () := by
  unfold fill_matrix_3d
  apply exceptFold_error _ i
  · intro m
    simp only [fill_row_3d]
    rw [if_neg (by tauto), if_neg ht3]
  · exact List.mem_range'_1.mpr ⟨hrs, by omega⟩

/-- C1 (amended): a row tag outside `{1,2,3,4}` is fatal in `fill_matrix_3d`
(the call aborts at the unknown-tag row), but `fill_matrix_radial` performs
no tag check at all: it returns quietly, and a row whose tag is outside the
voltage set gets no store outside its diagonal self block — every other
entry of that row block keeps the caller-passed value. -/
theorem fill_matrix_unknown_tag :
    (∀ (sq : ℚ → ℚ) (m0 : ℕ → ℚ) (tri : ℕ → Fin 3 → Vec3) (types : ℕ → ℕ)
       (values : ℕ → ℚ) (N_lines N_matrix rs re i : ℕ),
      rs ≤ i → i ≤ re →
      types i ≠ 1 → types i ≠ 2 → types i ≠ 3 → types i ≠ 4 →
      fill_matrix_3d sq m0 tri types values N_lines N_matrix rs re =
        .error ()) ∧
    (∀ (lg sq : ℚ → ℚ) (m0 : ℕ → ℚ) (pts : ℕ → Fin 2 → Vec3) (types : ℕ → ℕ)
       (values : ℕ → ℚ) (N_lines rs re i l j k : ℕ),
      re < N_lines →
      types i ≠ 1 → types i ≠ 2 → types i ≠ 3 → types i ≠ 4 →
      l < 8 → k < 8 → j < N_lines → j ≠ i →
      fill_matrix_radial lg sq m0 pts types values N_lines (8 * N_lines) rs re
          ((8 * i + l) * (8 * N_lines) + (8 * j + k)) =
        m0 ((8 * i + l) * (8 * N_lines) + (8 * j + k))) := by
  constructor
  · intro sq m0 tri types values N_lines N_matrix rs re i hrs hre h1 h2 h3 h4
    exact fill_matrix_3d_unknown_tag_error sq m0 tri types values N_lines
      N_matrix rs re i hrs hre h1 h2 h3 h4
  · intro lg sq m0 pts types values N_lines rs re i l j k hre h1 h2 h3 h4 hl hk hj hji
    exact fill_matrix_radial_bad_row_untouched lg sq m0 pts types values
      N_lines rs re i l j k hre h1 h2 h4 hl hk hj hji

/-- C1 (counterexample): a concrete `fill_matrix_radial` call whose row 0
carries the unknown tag 5 returns quietly and leaves the row's cross-block
entry `matrix[8]` at its passed-in value `0` — the claimed fatal abort does
not happen for the radial assembly. -/
theorem fill_matrix_radial_unknown_tag_quiet :
    cexTypes 0 = 5 ∧
    fill_matrix_radial id id (fun _ => 0) cexSegs cexTypes (fun _ => 0)
      2 16 0 0 8 = 0 := by
  constructor
  · rfl
  · exact fill_matrix_radial_bad_row_untouched id id (fun _ => 0) cexSegs
      cexTypes (fun _ => 0) 2 0 0 0 0 1 0 (by decide) (by decide) (by decide)
      (by decide) (by decide) (by decide) (by decide) (by decide)

/-- Witness for `fill_matrix_unknown_tag`: the 3D assembly with a tag-5 row
aborts, while the radial assembly leaves the tag-5 row's cross entry at 0. -/
theorem fill_matrix_unknown_tag_witness :
    fill_matrix_3d id (fun _ => 0) cexTri cexTypes (fun _ => 0) 1 1 0 0 =
      .error () ∧
    fill_matrix_radial id id (fun _ => 0) cexSegs cexTypes (fun _ => 0)
      2 16 0 0 8 = 0 :=
  ⟨fill_matrix_unknown_tag.1 id (fun _ => 0) cexTri cexTypes (fun _ => 0)
      1 1 0 0 0 (by decide) (by decide) (by decide) (by decide) (by decide)
      (by decide),
    fill_matrix_unknown_tag.2 id id (fun _ => 0) cexSegs cexTypes (fun _ => 0)
      2 0 0 0 0 1 0 (by decide) (by decide) (by decide) (by decide) (by decide)
      (by decide) (by decide) (by decide) (by decide)⟩

/-- Helper: fields of an accepted tracer step (`TE ≤ atol`). -/
theorem traceStep_accept (field : Vec6 → Vec3) (pw : ℚ → ℚ) (hmax atol : ℚ)
    (s : TraceState) (h1 : truncationError (rkStages field s.h s.y) ≤ atol) :
    (traceStep field pw hmax atol s).1.N = s.N + 1 ∧
    (traceStep field pw hmax atol s).1.poss =
      s.poss ++ [rkAccept s.y (rkStages field s.h s.y)] ∧
    (traceStep field pw hmax atol s).1.times =
      s.times ++ [s.times.getLastD 0 + s.h] ∧
    (traceStep field pw hmax atol s).1.writes = s.writes ++ [s.N] ∧
    (traceStep field pw hmax atol s).1.y =
      rkAccept s.y (rkStages field s.h s.y) ∧
    ((traceStep field pw hmax atol s).2 = true ↔
      s.N + 1 = TRACING_BLOCK_SIZE) := by
  by_cases hb : s.N + 1 = TRACING_BLOCK_SIZE <;>
    simp [traceStep, h1, hb]

/-- Helper: a rejected tracer step (`TE > atol`) only updates `h`. -/
theorem traceStep_reject (field : Vec6 → Vec3) (pw : ℚ → ℚ) (hmax atol : ℚ)
    (s : TraceState) (h1 : ¬ truncationError (rkStages field s.h s.y) ≤ atol) :
    traceStep field pw hmax atol s =
      ({ s with h := min (9/10 * s.h *
          pw (atol / truncationError (rkStages field s.h s.y))) hmax }, false) := by
  simp [traceStep, h1]

/-- Helper: unless the step both is accepted and fills the block (where the
C code returns before line 352), the new step size is
`min(0.9·h·pow(atol/TE, 1/5), hmax)`. -/
theorem traceStep_h_update (field : Vec6 → Vec3) (pw : ℚ → ℚ) (hmax atol : ℚ)
    (s : TraceState)
    (h2 : ¬(truncationError (rkStages field s.h s.y) ≤ atol ∧
      s.N + 1 = TRACING_BLOCK_SIZE)) :
    (traceStep field pw hmax atol s).1.h =
      min (9/10 * s.h * pw (atol / truncationError (rkStages field s.h s.y)))
        hmax := by
  by_cases h1 : truncationError (rkStages field s.h s.y) ≤ atol
  · have hb : ¬ s.N + 1 = TRACING_BLOCK_SIZE := fun hb => h2 ⟨h1, hb⟩
    simp [traceStep, h1, hb]
  · simp [traceStep, h1]

/-- Helper: `writes = [1, ..., N-1]` extends by the next index. -/
theorem range'_one_concat (n : ℕ) (h : 1 ≤ n) :
    List.range' 1 (n - 1) ++ [n] = List.range' 1 n := by
  have hm : n - 1 + 1 = n := by omega
  calc List.range' 1 (n - 1) ++ [n]
      = List.range' 1 (n - 1) ++ [1 + 1 * (n - 1)] := by
        rw [show 1 + 1 * (n - 1) = n by omega]
    _ = List.range' 1 ((n - 1) + 1) := (List.range'_concat 1 (n - 1)).symm
    _ = List.range' 1 n := by rw [hm]

/-- Helper: invariant of the tracer while-loop: the count starts at 1, never
exceeds the block size, equals the number of stored samples and times, the
store indices are exactly `1..N-1`, and a returned state either filled the
block or left the bounding box. -/
theorem traceLoop_invariant (field : Vec6 → Vec3) (pw : ℚ → ℚ)
    (hmax atol : ℚ) (bounds : Fin 3 → ℚ × ℚ) :
    ∀ (fuel : ℕ) (s s' : TraceState),
      1 ≤ s.N → s.N < TRACING_BLOCK_SIZE →
      s.N = s.poss.length → s.N = s.times.length →
      s.writes = List.range' 1 (s.N - 1) →
      traceLoop field pw hmax atol bounds fuel s = some s' →
      1 ≤ s'.N ∧ s'.N ≤ TRACING_BLOCK_SIZE ∧ s'.N = s'.poss.length ∧
        s'.N = s'.times.length ∧ s'.writes = List.range' 1 (s'.N - 1) ∧
        (s'.N = TRACING_BLOCK_SIZE ∨ ¬ inBounds bounds s'.y) := by
  intro fuel
  induction fuel with
  | zero => intro s s' _ _ _ _ _ h; cases h
  | succ fuel ih =>
    intro s s' h1 h2 h3 h4 h5 hrun
    simp only [traceLoop] at hrun
    by_cases hin : inBounds bounds s.y
    · rw [if_pos hin] at hrun
      by_cases hacc : truncationError (rkStages field s.h s.y) ≤ atol
      · obtain ⟨hN, hposs, htimes, hwrites, hy, hdone⟩ :=
          traceStep_accept field pw hmax atol s hacc
        by_cases hb : s.N + 1 = TRACING_BLOCK_SIZE
        · rw [hdone.mpr hb] at hrun
          simp only [if_true] at hrun
          injection hrun with hrun
          subst hrun
          refine ⟨by omega, by omega, ?_, ?_, ?_, Or.inl (by omega)⟩
          · rw [hposs, List.length_append, List.length_singleton, hN, h3]
          · rw [htimes, List.length_append, List.length_singleton, hN, h4]
          · rw [hwrites, hN, h5, Nat.add_sub_cancel, range'_one_concat s.N h1]
        · have hd : (traceStep field pw hmax atol s).2 = false := by
            cases hdt : (traceStep field pw hmax atol s).2
            · rfl
            · exact absurd (hdone.mp hdt) hb
          rw [hd] at hrun
          simp only [Bool.false_eq_true, if_false] at hrun
          refine ih (traceStep field pw hmax atol s).1 s' (by omega) (by omega)
            ?_ ?_ ?_ hrun
          · rw [hposs, List.length_append, List.length_singleton, hN, h3]
          · rw [htimes, List.length_append, List.length_singleton, hN, h4]
          · rw [hwrites, hN, h5, Nat.add_sub_cancel, range'_one_concat s.N h1]
      · rw [traceStep_reject field pw hmax atol s hacc] at hrun
        simp only [Bool.false_eq_true, if_false] at hrun
        exact ih { s with h := min (9/10 * s.h *
            pw (atol / truncationError (rkStages field s.h s.y))) hmax }
          s' h1 h2 h3 h4 h5 hrun
    · rw [if_neg hin] at hrun
      injection hrun with hrun
      subst hrun
      exact ⟨h1, by omega, h3, h4, h5, Or.inr hin⟩

/-- C2 (amended): in the current tracer (traceon-backend.c) a step is
accepted — the stored-sample count grows — exactly when `TE ≤ atol`, and
unless the accepted step fills the block (early `return`), the step size is
updated to `min(0.9·h·(atol/TE)^{1/5}, h_max)` with no lower clamp; the
older variant (backend.c) additionally accepts every step taken at
`h = hmin`, regardless of `TE`. -/
theorem trace_step_control :
    (∀ (field : Vec6 → Vec3) (pw : ℚ → ℚ) (hmax atol : ℚ) (s : TraceState),
      ((traceStep field pw hmax atol s).1.N = s.N + 1 ↔
        truncationError (rkStages field s.h s.y) ≤ atol) ∧
      (¬(truncationError (rkStages field s.h s.y) ≤ atol ∧
          s.N + 1 = TRACING_BLOCK_SIZE) →
        (traceStep field pw hmax atol s).1.h =
          min (9/10 * s.h *
            pw (atol / truncationError (rkStages field s.h s.y))) hmax)) ∧
    (∀ (pw : ℚ → ℚ) (TE atol hmin hmax : ℚ),
      (backend_step_control pw TE hmin atol hmin hmax).1 = true) := by
  constructor
  · intro field pw hmax atol s
    constructor
    · constructor
      · intro hN
        by_contra hacc
        rw [traceStep_reject field pw hmax atol s hacc] at hN
        simp at hN
      · intro hacc
        exact (traceStep_accept field pw hmax atol s hacc).1
    · exact traceStep_h_update field pw hmax atol s
  · intro pw TE atol hmin hmax
    simp [backend_step_control]

/-- Witness for `trace_step_control`: the zero-field step from `s0` with
`atol = 1` does not fill the block, so the step size is updated by the
min-formula. -/
theorem trace_step_control_witness :
    (traceStep zeroField id (1/100) 1 s0).1.h =
      min (9/10 * s0.h *
        id (1 / truncationError (rkStages zeroField s0.h s0.y))) (1/100) :=
  (trace_step_control.1 zeroField id (1/100) 1 s0).2
    (fun hc => absurd hc.2 (by decide))

/-- C2 (counterexample): the older tracer variant (backend.c line 316)
accepts a step with `TE = 2 > atol = 1` because `h = hmin`, contradicting
the claim that a step is accepted iff `TE ≤ atol`. -/
theorem backend_accepts_at_hmin :
    (backend_step_control id 2 1 1 1 1).1 = true ∧ ¬((2 : ℚ) ≤ 1) := by
  constructor
  · simp [backend_step_control]
  · norm_num

/-- C3 (confirmed): a `trace_particle` call that returns did so exactly at a
stored state outside the bounding box or on filling the block: the returned
count `N` equals the number of stored samples (and stored times), with
`1 ≤ N ≤ TRACING_BLOCK_SIZE`, and at return either `N` reached the block
size or the last stored state lies outside the box; conversely the loop
returns immediately on any state outside the box. -/
theorem trace_particle_termination :
    (∀ (sq pw : ℚ → ℚ) (field : Vec6 → Vec3) (bounds : Fin 3 → ℚ × ℚ)
       (atol t0 : ℚ) (pos0 : Vec6) (fuel : ℕ) (s : TraceState),
      trace_particle sq pw field bounds atol t0 pos0 fuel = some s →
      1 ≤ s.N ∧ s.N ≤ TRACING_BLOCK_SIZE ∧ s.N = s.poss.length ∧
        s.N = s.times.length ∧
        (s.N = TRACING_BLOCK_SIZE ∨ ¬ inBounds bounds s.y)) ∧
    (∀ (field : Vec6 → Vec3) (pw : ℚ → ℚ) (hmax atol : ℚ)
       (bounds : Fin 3 → ℚ × ℚ) (fuel : ℕ) (s : TraceState),
      ¬ inBounds bounds s.y →
      traceLoop field pw hmax atol bounds (fuel + 1) s = some s) := by
  constructor
  · intro sq pw field bounds atol t0 pos0 fuel s hrun
    obtain ⟨c1, c2, c3, c4, _, c6⟩ :=
      traceLoop_invariant field pw
        (TRACING_STEP_MAX / norm_3d sq (pos0 3) (pos0 4) (pos0 5)) atol bounds
        fuel _ s (by simp) (by norm_num [TRACING_BLOCK_SIZE]) (by simp)
        (by simp) rfl hrun
    exact ⟨c1, c2, c3, c4, c6⟩
  · intro field pw hmax atol bounds fuel s h
    rw [traceLoop, if_neg h]

/-- Witness for `trace_particle_termination`: starting outside `boundsA`,
the tracer returns at once with the single caller-supplied sample. -/
theorem trace_particle_termination_witness :
    1 ≤ initA.N ∧ initA.N ≤ TRACING_BLOCK_SIZE ∧
      initA.N = initA.poss.length ∧ initA.N = initA.times.length ∧
      (initA.N = TRACING_BLOCK_SIZE ∨ ¬ inBounds boundsA initA.y) :=
  trace_particle_termination.1 id id zeroField boundsA 1 0 posA 1 initA
    (by norm_num [trace_particle, traceLoop, inBounds, boundsA, posA, initA,
      norm_3d, TRACING_STEP_MAX])

/-- C10 (confirmed): the tracer never stores into index 0 of the output
buffers: the caller-supplied `positions[0]` and `times[0]` survive, and the
stored indices are exactly `1 .. N-1`. -/
theorem trace_particle_frame :
    ∀ (sq pw : ℚ → ℚ) (field : Vec6 → Vec3) (bounds : Fin 3 → ℚ × ℚ)
      (atol t0 : ℚ) (pos0 : Vec6) (fuel : ℕ) (s : TraceState),
      trace_particle sq pw field bounds atol t0 pos0 fuel = some s →
      0 ∉ s.writes ∧ s.writes = List.range' 1 (s.N - 1) := by
  intro sq pw field bounds atol t0 pos0 fuel s hrun
  obtain ⟨_, _, _, _, c5, _⟩ :=
    traceLoop_invariant field pw
      (TRACING_STEP_MAX / norm_3d sq (pos0 3) (pos0 4) (pos0 5)) atol bounds
      fuel _ s (by simp) (by norm_num [TRACING_BLOCK_SIZE]) (by simp)
      (by simp) rfl hrun
  refine ⟨?_, c5⟩
  rw [c5]
  intro hmem
  have := List.mem_range'_1.mp hmem
  omega

/-- Witness for `trace_particle_frame`: the immediate-return run from `posA`
performed no store at all, in particular none at index 0. -/
theorem trace_particle_frame_witness :
    0 ∉ initA.writes ∧ initA.writes = List.range' 1 (initA.N - 1) :=
  trace_particle_frame id id zeroField boundsA 1 0 posA 1 initA
    (by norm_num [trace_particle, traceLoop, inBounds, boundsA, posA, initA,
      norm_3d, TRACING_STEP_MAX])
